import Mathlib

/-!
Verification of the regex-to-English narrator (src/regexToEnglish.js).

The pattern source is modelled as a `List Char`; JS string indexing
(`pattern[i]`, which yields `undefined` out of range) is modelled with
`List.get?`; the narration accumulator is a `List Char` turned into a
`String` at the end.  The main scan loop is written with explicit fuel
(the loop advances its cursor by at least one per iteration, so fuel
equal to the pattern length suffices; this is proved below).
-/

deriving instance DecidableEq for Except

namespace RegexSimplifier

/-- Shapes of JavaScript values that `regexToEnglish` distinguishes:
a compiled `RegExp` (we keep only its `source` text, the sole field the
function reads), a string, or any other value (of which the function only
observes truthiness). -/
inductive JSInput where
  | regexp (source : String)
  | str (s : String)
  | other (truthy : Bool)

/-- Open-brace character, written via its code point. -/
def lbrace : Char := Char.ofNat 123

/-- Close-brace character, written via its code point. -/
def rbrace : Char := Char.ofNat 125

/-- JS truthiness test used by the `if (!regexPattern)` guard: a RegExp
object is always truthy, a string is falsy iff empty, other values carry
their own truthiness. -/
def jsFalsy : JSInput → Bool
  | .regexp _ => false
  | .str s => s.data.isEmpty
  | .other t => !t

def isStringInput : JSInput → Bool
  | .str _ => true
  | _ => false

def isRegExpInput : JSInput → Bool
  | .regexp _ => true
  | _ => false

/-- Regex flag letters recognized by the wrapper-stripping replace. -/
def isFlagChar (c : Char) : Bool := c = 'g' || c = 'i' || c = 'm' || c = 'u' || c = 'y'

/-- First alternative of the stripping replace: a slash at the very start
of the string is removed. -/
def stripLead (l : List Char) : List Char :=
  match l with
  | c :: rest => if c = '/' then rest else l
  | [] => l

/-- Second alternative of the stripping replace: a slash followed only by
flag letters up to the end of the string is removed (the flag run is the
maximal flag-letter suffix; the match exists iff the character just before
that run is a slash). -/
def stripTrail (l : List Char) : List Char :=
  match l.reverse.dropWhile isFlagChar with
  | c :: rest => if c = '/' then rest.reverse else l
  | [] => l

/-- The string-branch normalization
`pattern.replace(slash-at-start-or-slash-plus-flags-at-end, '')` (global):
the two alternatives fire independently and non-overlappingly, leading
slash first. -/
def normalizePattern (l : List Char) : List Char := stripTrail (stripLead l)

/-- Relative index of the first occurrence of `c` in `l`. -/
def findIdxAux (c : Char) : List Char → Option Nat
  | [] => none
  | x :: xs => if x = c then some 0 else (findIdxAux c xs).map (· + 1)

/-- JS `pattern.indexOf(c, start)`: index of the first occurrence of `c`
at position `start` or later, `none` for -1. -/
def jsIndexOf (pat : List Char) (c : Char) (start : Nat) : Option Nat :=
  (findIdxAux c (pat.drop start)).map (start + ·)

/-- JS `pattern.substring(a, b)` for `a ≤ b`: characters at positions
`a` up to but excluding `b`. -/
def sliceJS (l : List Char) (a b : Nat) : List Char := (l.drop a).take (b - a)

/-- JS `String.prototype.split` with a single-character separator. -/
def splitOnChar (sep : Char) : List Char → List (List Char)
  | [] => [[]]
  | c :: rest =>
    if c = sep then [] :: splitOnChar sep rest
    else
      match splitOnChar sep rest with
      | h :: t => (c :: h) :: t
      | [] => [[c]]

/-- Stringification of the looked-up next character in the escape branch:
a character prints as itself, an out-of-range lookup (JS `undefined`)
prints as the text "undefined" under template-literal interpolation. -/
def jsCharText : Option Char → List Char
  | some c => [c]
  | none => "undefined".data

/-- interpretCharacterClass from the source: canonical range lookups,
then the hyphen fallback `parts[0] through parts[parts.length - 1]`
over a split on '-', then the raw text itself. -/
def interpretCharacterClass (cc : List Char) : List Char :=
  if cc = "a-z".data then "lowercase letters".data
  else if cc = "A-Z".data then "uppercase letters".data
  else if cc = "0-9".data then "digits".data
  else if cc = "a-zA-Z".data then "letters".data
  else if cc = "a-zA-Z0-9".data then "letters and digits".data
  else if cc = "A-Za-z0-9".data then "letters and digits".data
  else if cc.contains '-' then
    let parts := splitOnChar '-' cc
    parts.headD [] ++ " through ".data ++ parts.getLastD []
  else cc

/-- findMatchingParen's loop body: from index `i` with depth `count`
(seeded at 1 by the wrapper), skip the character after an unescaped
backslash, bump the depth on '(' and drop it on ')', answering the index
where the depth reaches zero.  Fuel-indexed; every step advances `i`, so
`pat.length` fuel is enough. -/
def findParenAux (pat : List Char) : Nat → Nat → Nat → Option Nat
  | 0, _, _ => none
  | fuel + 1, i, count =>
    if i < pat.length then
      if pat.get? i = some '\\' then findParenAux pat fuel (i + 2) count
      else
        let c1 := if pat.get? i = some '(' then count + 1 else count
        let c2 := if pat.get? i = some ')' then c1 - 1 else c1
        if c2 = 0 then some i else findParenAux pat fuel (i + 1) c2
    else none

/-- findMatchingParen from the source: depth counter seeded at 1,
scanning from `start + 1`; `none` models the -1 not-found return. -/
def findMatchingParen (pat : List Char) (start : Nat) : Option Nat :=
  findParenAux pat pat.length (start + 1) 1

/-- Escape-branch lexicon: `\` followed by the looked-up next character
(JS `undefined` past the end, rendered "undefined" by interpolation). -/
def escapePhrase (c? : Option Char) : List Char :=
  match c? with
  | some 'd' => "digit".data
  | some 'w' => "word character (letter, digit, or underscore)".data
  | some 's' => "whitespace character".data
  | some 'b' => "word boundary".data
  | some 'D' => "non-digit".data
  | some 'W' => "non-word character".data
  | some 'S' => "non-whitespace character".data
  | some 'n' => "newline".data
  | some 't' => "tab".data
  | _ => "literal ".data ++ jsCharText c?

/-- Brace-quantifier phrase: body with a comma splits into `min`/`max`
(the first two split parts, exactly as the JS array destructuring reads
them); empty `max` reads "min or more times"; no comma reads
"exactly N times". -/
def quantPhrase (q : List Char) : List Char :=
  if q.contains ',' then
    match splitOnChar ',' q with
    | mn :: mx :: _ =>
      if mx = [] then " (".data ++ mn ++ " or more times)".data
      else " (".data ++ mn ++ " to ".data ++ mx ++ " times)".data
    | _ => []
  else " (exactly ".data ++ q ++ " times)".data

/-- One iteration of the narrator's switch at cursor `i`: the emitted
fragment and the value the cursor holds right before the loop's `i++`.
The bracket and brace cases move the cursor to the found closing
delimiter; the escape case moves it onto the escaped character; all other
cases leave it in place. -/
def emitFrag (pat : List Char) (i : Nat) : List Char × Nat :=
  match pat.get? i with
  | none => ([], i)
  | some c =>
    if c = '^' then ("Start of string/line, then ".data, i)
    else if c = '$' then ("end of string/line".data, i)
    else if c = '.' then ("any character".data, i)
    else if c = '*' then (" (zero or more times)".data, i)
    else if c = '+' then (" (one or more times)".data, i)
    else if c = '?' then (" (optional)".data, i)
    else if c = '\\' then (escapePhrase (pat.get? (i + 1)), i + 1)
    else if c = '[' then
      match jsIndexOf pat ']' i with
      | some j =>
          ("character from set: ".data ++ interpretCharacterClass (sliceJS pat (i + 1) j), j)
      | none => ("literal [".data, i)
    else if c = lbrace then
      match jsIndexOf pat rbrace i with
      | some j => (quantPhrase (sliceJS pat (i + 1) j), j)
      | none => ("literal \x7b".data, i)
    else if c = '(' then
      match findMatchingParen pat i with
      | some _ => ("group: (".data, i)
      | none => ("literal (".data, i)
    else if c = ')' then (")".data, i)
    else if c = '|' then (" OR ".data, i)
    else ("literal ".data ++ [c], i)

/-- Connector guard from the source, evaluated after the fragment has been
appended and the cursor incremented: connector only when more input
remains, the narration does not already end in a space or an open paren,
and the next character is none of the attach-to-previous characters. -/
def connAppend (acc pat : List Char) (i : Nat) : Bool :=
  decide (i < pat.length) && decide (acc.getLast? ≠ some ' ') &&
    decide (acc.getLast? ≠ some '(') &&
    decide (pat.get? i ≠ some ')') && decide (pat.get? i ≠ some '*') &&
    decide (pat.get? i ≠ some '+') && decide (pat.get? i ≠ some '?') &&
    decide (pat.get? i ≠ some lbrace) && decide (pat.get? i ≠ some '$')

/-- Cursor position at the start of the next iteration: the switch's
final cursor plus the loop's `i++`. -/
def nextCursor (pat : List Char) (i : Nat) : Nat := (emitFrag pat i).2 + 1

/-- One loop iteration's effect on the narration: append the fragment,
then append the connector when the guard (evaluated at the incremented
cursor) passes. -/
def stepAcc (pat : List Char) (i : Nat) (acc : List Char) : List Char :=
  let acc1 := acc ++ (emitFrag pat i).1
  if connAppend acc1 pat (nextCursor pat i) then acc1 ++ ", then ".data else acc1

/-- The narrator's while loop, fuel-indexed. -/
def narrLoop (pat : List Char) : Nat → Nat → List Char → List Char
  | 0, _, acc => acc
  | fuel + 1, i, acc =>
    if i < pat.length then narrLoop pat fuel (nextCursor pat i) (stepAcc pat i acc)
    else acc

/-- Does `pre` occur at the very start of `l`? -/
def startsWithL : List Char → List Char → Bool
  | [], _ => true
  | _ :: _, [] => false
  | p :: ps, x :: xs => p = x && startsWithL ps xs

/-- Does `suf` occur at the very end of `l`? -/
def endsWithL (suf l : List Char) : Bool := startsWithL suf.reverse l.reverse

/-- Whitespace for the final `.trim()` (the characters that can actually
reach the ends of a narration). -/
def isWsChar (c : Char) : Bool :=
  c = ' ' || c = '\t' || c = '\n' || c = '\r' || c = Char.ofNat 11 ||
    c = Char.ofNat 12 || c = Char.ofNat 160

/-- JS `.trim()`: whitespace dropped from both ends. -/
def trimL (l : List Char) : List Char :=
  ((l.dropWhile isWsChar).reverse.dropWhile isWsChar).reverse

/-- The three cleanup replaces and the trim, in source order: drop one
trailing connector; rewrite the start-anchor prefix; rewrite the
end-anchor suffix; trim. -/
def cleanupNarration (l : List Char) : List Char :=
  let s1 := if endsWithL ", then ".data l then l.take (l.length - 7) else l
  let p := "Start of string/line, then ".data
  let s2 := if startsWithL p s1 then "Start of string/line, ".data ++ s1.drop p.length else s1
  let suf := ", then end of string/line".data
  let s3 :=
    if endsWithL suf s2 then s2.take (s2.length - suf.length) ++ ", end of string/line".data
    else s2
  trimL s3

/-- JS `a || b` on strings: `b` exactly when `a` is empty. -/
def jsOr (a b : String) : String := if a = "" then b else a

/-- The five curated special-case checks, in table order.  Each table
regex is anchored and (apart from one optional group and one unanchored
prefix test) consists solely of escaped literal characters, so the tests
reduce to the string comparisons written here. -/
def checkSpecialCases (p : List Char) : Option String :=
  if p = "\\b[A-Za-z0-9._%-+]+@[A-Za-z0-9.-]+\\.[A-Z|a-z]\x7b2,\x7d\\b".data then
    some "Email address pattern"
  else if p = "\\d\x7b3\x7d-\\d\x7b2\x7d-\\d\x7b4\x7d".data then
    some "3 digits - 2 digits - 4 digits (SSN-like pattern)"
  else if p = "\\d\x7b5\x7d$".data ∨ p = "\\d\x7b5\x7d-\\d\x7b4\x7d$".data then
    some "5 digits optionally followed by dash and 4 more digits (ZIP code)"
  else if p = "\\d\x7b4\x7d[\\s-]?\\d\x7b4\x7d[\\s-]?\\d\x7b4\x7d[\\s-]?\\d\x7b4\x7d".data then
    some "Credit card number (4 groups of 4 digits with optional separators)"
  else if startsWithL "https?:".data p then
    some "URL starting with http or https"
  else none

/-- Everything after normalization: the special-case table short-circuit,
the narration loop from cursor 0 with empty accumulator, cleanup, and the
empty-narration fallback. -/
def explain (p : List Char) : String :=
  match checkSpecialCases p with
  | some e => e
  | none =>
      jsOr (String.mk (cleanupNarration (narrLoop p p.length 0 []))) "Complex regex pattern"

/-- regexToEnglish from the source: the falsy guard throws, a RegExp
contributes its source text unchanged, a string is wrapper-stripped, any
other value throws. -/
def regexToEnglish (inp : JSInput) : Except String String :=
  if jsFalsy inp then .error "Regex pattern is required"
  else
    match inp with
    | .regexp src => .ok (explain src.data)
    | .str s => .ok (explain (normalizePattern s.data))
    | .other _ => .error "Regex pattern must be a string or RegExp object"

/-! ## Helper lemmas -/

/-- The relative finder answers the first occurrence: the character there
is `c` and no earlier position holds `c`. -/
theorem findIdxAux_spec (c : Char) :
    ∀ (l : List Char) (k : Nat), findIdxAux c l = some k →
      l.get? k = some c ∧ ∀ m, m < k → l.get? m ≠ some c := by
  intro l
  induction l with
  | nil => intro k h; cases h
  | cons x xs ih =>
    intro k h
    by_cases hx : x = c
    · simp [findIdxAux, hx] at h
      subst h
      exact ⟨by simp [hx], by intro m hm; omega⟩
    · simp [findIdxAux, hx] at h
      rcases h with ⟨k', hk', rfl⟩
      rcases ih k' hk' with ⟨h1, h2⟩
      refine ⟨by simpa using h1, ?_⟩
      intro m hm
      cases m with
      | zero => simpa using hx
      | succ m' => simpa using h2 m' (by omega)

/-- Dropping then indexing is indexing at the shifted position. -/
theorem get?_drop_eq (l : List Char) : ∀ (i j : Nat), (l.drop i).get? j = l.get? (i + j) := by
  induction l with
  | nil => intro i j; simp
  | cons x xs ih =>
    intro i j
    cases i with
    | zero => simp
    | succ i' =>
      show (xs.drop i').get? j = (x :: xs).get? (i' + 1 + j)
      have harith : i' + 1 + j = (i' + j) + 1 := by omega
      rw [harith]
      exact ih i' j

/-- A found index is at or after the search start. -/
theorem jsIndexOf_ge (pat : List Char) (c : Char) (start j : Nat)
    (h : jsIndexOf pat c start = some j) : start ≤ j := by
  unfold jsIndexOf at h
  rcases Option.map_eq_some'.mp h with ⟨k, _, rfl⟩
  exact Nat.le_add_right start k

/-- The switch never moves the pre-increment cursor backwards. -/
theorem emit_snd_ge (pat : List Char) (i : Nat) : i ≤ (emitFrag pat i).2 := by
  cases hc : pat.get? i with
  | none =>
    simp only [emitFrag, hc]
    exact Nat.le_refl i
  | some c =>
    simp only [emitFrag, hc]
    by_cases h1 : c = '^'
    · rw [if_pos h1]
    rw [if_neg h1]
    by_cases h2 : c = '$'
    · rw [if_pos h2]
    rw [if_neg h2]
    by_cases h3 : c = '.'
    · rw [if_pos h3]
    rw [if_neg h3]
    by_cases h4 : c = '*'
    · rw [if_pos h4]
    rw [if_neg h4]
    by_cases h5 : c = '+'
    · rw [if_pos h5]
    rw [if_neg h5]
    by_cases h6 : c = '?'
    · rw [if_pos h6]
    rw [if_neg h6]
    by_cases h7 : c = '\\'
    · rw [if_pos h7]; exact Nat.le_succ i
    rw [if_neg h7]
    by_cases h8 : c = '['
    · rw [if_pos h8]
      split
      next j hj => exact jsIndexOf_ge pat ']' i j hj
      next => exact Nat.le_refl i
    rw [if_neg h8]
    by_cases h9 : c = lbrace
    · rw [if_pos h9]
      split
      next j hj => exact jsIndexOf_ge pat rbrace i j hj
      next => exact Nat.le_refl i
    rw [if_neg h9]
    by_cases h10 : c = '('
    · rw [if_pos h10]
      split
      next => exact Nat.le_refl i
      next => exact Nat.le_refl i
    rw [if_neg h10]
    by_cases h11 : c = ')'
    · rw [if_pos h11]
    rw [if_neg h11]
    by_cases h12 : c = '|'
    · rw [if_pos h12]
    rw [if_neg h12]

/-- Unfolding one iteration of the loop when input remains. -/
theorem narrLoop_step (pat : List Char) (fuel i : Nat) (acc : List Char)
    (hi : i < pat.length) :
    narrLoop pat (fuel + 1) i acc = narrLoop pat fuel (nextCursor pat i) (stepAcc pat i acc) := by
  rw [narrLoop]
  exact if_pos hi

/-- One unit of extra fuel changes nothing once the fuel covers the
remaining distance to the end of the pattern. -/
theorem narrLoop_fuel_succ (pat : List Char) :
    ∀ fuel i acc, pat.length - i ≤ fuel →
      narrLoop pat (fuel + 1) i acc = narrLoop pat fuel i acc := by
  intro fuel
  induction fuel with
  | zero =>
    intro i acc h
    have hi : ¬ i < pat.length := by omega
    simp [narrLoop, hi]
  | succ f ih =>
    intro i acc h
    by_cases hi : i < pat.length
    · have hstep : i < nextCursor pat i := Nat.lt_succ_of_le (emit_snd_ge pat i)
      rw [narrLoop_step pat (f + 1) i acc hi, narrLoop_step pat f i acc hi]
      exact ih _ _ (by omega)
    · rw [narrLoop, if_neg hi, narrLoop, if_neg hi]

/-- Any amount of extra fuel changes nothing once the fuel covers the
remaining distance. -/
theorem narrLoop_fuel_add (pat : List Char) :
    ∀ d fuel i acc, pat.length - i ≤ fuel →
      narrLoop pat (fuel + d) i acc = narrLoop pat fuel i acc := by
  intro d
  induction d with
  | zero => intro fuel i acc _; rfl
  | succ d ih =>
    intro fuel i acc h
    show narrLoop pat (fuel + d + 1) i acc = narrLoop pat fuel i acc
    rw [narrLoop_fuel_succ pat (fuel + d) i acc (by omega), ih fuel i acc h]

/-- Each curated description in the special-case table is non-empty. -/
theorem checkSpecialCases_ne_empty (p : List Char) (e : String)
    (h : checkSpecialCases p = some e) : e ≠ "" := by
  unfold checkSpecialCases at h
  split_ifs at h <;> injection h with h <;> subst h <;> decide

/-- The post-normalization pipeline never produces the empty string. -/
theorem explain_ne_empty (p : List Char) : explain p ≠ "" := by
  unfold explain
  cases h : checkSpecialCases p with
  | some e =>
    simp only [h]
    exact checkSpecialCases_ne_empty p e h
  | none =>
    simp only [h]
    unfold jsOr
    split
    next => decide
    next h' => exact h'

/-! ## Claims -/

set_option maxRecDepth 8000 in
/-- C1 counterexample: on a compiled pattern whose source text is the
anchored SSN idiom (with the start and end anchors), regexToEnglish does
NOT return the curated SSN description: the table regex is anchored to the
exact unanchored text, so the general narration runs instead. -/
theorem ssn_anchored_cex :
    regexToEnglish (.regexp "^\\d\x7b3\x7d-\\d\x7b2\x7d-\\d\x7b4\x7d$") ≠
      .ok "3 digits - 2 digits - 4 digits (SSN-like pattern)" := by decide

/-- C1 (amended): a compiled pattern whose source text is exactly the
unanchored digit-group idiom is recognized by the special-case table and
returns the curated SSN description, short-circuiting the general
narration. -/
theorem ssn_table_amended :
    regexToEnglish (.regexp "\\d\x7b3\x7d-\\d\x7b2\x7d-\\d\x7b4\x7d") =
      .ok "3 digits - 2 digits - 4 digits (SSN-like pattern)" := by decide

/-- C2 counterexample: in the bracket pattern holding an escaped close
bracket, the class span ends at that escaped bracket (the scan uses a
plain first-occurrence search), so the narration reads the class content
as the two characters before it — not the escape-skipped full content. -/
theorem bracket_escape_cex :
    regexToEnglish (.str "[a\\]b]") =
      .ok "character from set: a\\, then literal b, then literal ]" ∧
    regexToEnglish (.str "[a\\]b]") ≠ .ok "character from set: a\\]b" :=
  ⟨by decide, by decide⟩

/-- C2 (amended): the matching close bracket is located by a plain
first-occurrence search with no escape handling: the index found by the
narrator's bracket scan is at or after the opening position, holds a close
bracket, and no position between them holds one — escaped or not. -/
theorem bracket_first_close :
    ∀ (pat : List Char) (i j : Nat), jsIndexOf pat ']' i = some j →
      i ≤ j ∧ pat.get? j = some ']' ∧ ∀ k, i ≤ k → k < j → pat.get? k ≠ some ']' := by
  intro pat i j h
  unfold jsIndexOf at h
  rcases Option.map_eq_some'.mp h with ⟨k, hk, rfl⟩
  rcases findIdxAux_spec ']' (pat.drop i) k hk with ⟨h1, h2⟩
  refine ⟨Nat.le_add_right i k, ?_, ?_⟩
  · rw [← get?_drop_eq]; exact h1
  · intro m him hmlt
    rcases Nat.exists_eq_add_of_le him with ⟨d, rfl⟩
    rw [← get?_drop_eq]
    exact h2 d (by omega)

/-- C2 witness: the amended statement evaluated on a two-character
bracket pair. -/
theorem bracket_first_close_witness :
    0 ≤ 1 ∧ ("[]".data).get? 1 = some ']' ∧
      ∀ k, 0 ≤ k → k < 1 → ("[]".data).get? k ≠ some ']' :=
  bracket_first_close "[]".data 0 1 (by decide)

/-- C3 counterexample: the class content listing uppercase-first letters
is not mapped to the word "letters"; it falls through to the hyphen-range
fallback and reads "A through z". -/
theorem charclass_AZaz_cex :
    interpretCharacterClass "A-Za-z".data ≠ "letters".data ∧
    interpretCharacterClass "A-Za-z".data = "A through z".data :=
  ⟨by decide, by decide⟩

/-- C3 (amended): the canonical lookups are lowercase, uppercase, digits,
the lowercase-first letters spelling, and both letters-and-digits
spellings; the uppercase-first letters spelling has no canonical entry and
takes the range fallback reading "A through z". -/
theorem charclass_canonical :
    interpretCharacterClass "a-z".data = "lowercase letters".data ∧
    interpretCharacterClass "A-Z".data = "uppercase letters".data ∧
    interpretCharacterClass "0-9".data = "digits".data ∧
    interpretCharacterClass "a-zA-Z".data = "letters".data ∧
    interpretCharacterClass "a-zA-Z0-9".data = "letters and digits".data ∧
    interpretCharacterClass "A-Za-z0-9".data = "letters and digits".data ∧
    interpretCharacterClass "A-Za-z".data = "A through z".data := by decide

/-- C4 counterexample: a string input carrying only a leading slash — not
a complete wrapper with trailing flag letters — is still changed by the
normalizer, which strips the leading slash on its own. -/
theorem wrapper_strip_cex :
    normalizePattern "/abc".data = "abc".data ∧ "/abc".data ≠ "abc".data ∧
    regexToEnglish (.str "/abc") = .ok "literal a, then literal b, then literal c" :=
  ⟨by decide, by decide, by decide⟩

/-- C4 (amended): the normalizer strips a leading slash and,
independently, a trailing slash followed only by flag letters; only a
string with neither feature is passed through unchanged. -/
theorem normalize_passthrough :
    (∀ s : List Char, s.head? ≠ some '/' →
        (s.reverse.dropWhile isFlagChar).head? ≠ some '/' → normalizePattern s = s) ∧
    normalizePattern "/abc".data = "abc".data ∧
    normalizePattern "abc/g".data = "abc".data ∧
    normalizePattern "/abc/gi".data = "abc".data := by
  refine ⟨?_, by decide, by decide, by decide⟩
  intro s h1 h2
  have hl : stripLead s = s := by
    cases s with
    | nil => rfl
    | cons c cs =>
      have hc : c ≠ '/' := by
        intro hcc
        exact h1 (by simp [hcc])
      simp [stripLead, hc]
  rw [normalizePattern, hl]
  cases hd : s.reverse.dropWhile isFlagChar with
  | nil => simp [stripTrail, hd]
  | cons c cs =>
    have hc : c ≠ '/' := by
      intro hcc
      rw [hd, hcc] at h2
      exact h2 rfl
    simp [stripTrail, hd, hc]

/-- C4 witness: a plain string with neither wrapper feature passes
through unchanged. -/
theorem normalize_passthrough_witness : normalizePattern "abc".data = "abc".data :=
  normalize_passthrough.1 "abc".data (by decide) (by decide)

/-- C5: translating a pattern with an unmatched opening delimiter never
produces an error — every non-empty string input yields a successful
result — and the unmatched opener is narrated as a literal fragment while
the scan continues to the end, deterministically, for an unmatched open
paren, bracket, and brace. -/
theorem unmatched_delimiter_ok :
    (∀ s : String, s.data ≠ [] → ∃ out, regexToEnglish (.str s) = .ok out) ∧
    regexToEnglish (.str "(abc") = .ok "literal (literal a, then literal b, then literal c" ∧
    regexToEnglish (.str "[abc") =
      .ok "literal [, then literal a, then literal b, then literal c" ∧
    regexToEnglish (.str "\x7babc") =
      .ok "literal \x7b, then literal a, then literal b, then literal c" := by
  refine ⟨?_, by decide, by decide, by decide⟩
  intro s hs
  refine ⟨explain (normalizePattern s.data), ?_⟩
  have hf : jsFalsy (.str s) = false := by
    cases hd : s.data with
    | nil => exact absurd hd hs
    | cons c cs => simp [jsFalsy, hd]
  simp [regexToEnglish, hf]

/-- C5 witness: the never-errors conjunct evaluated on the unmatched
paren example. -/
theorem unmatched_delimiter_ok_witness :
    ∃ out, regexToEnglish (.str "(abc") = .ok out :=
  unmatched_delimiter_ok.1 "(abc" (by decide)

/-- C6: regexToEnglish produces an error exactly when the argument is
falsy (absent, empty string, or another falsy value) or is neither a
string nor a compiled pattern; every other input succeeds. -/
theorem invalid_input_iff :
    ∀ inp, (∃ e, regexToEnglish inp = .error e) ↔
      (jsFalsy inp = true ∨ (isStringInput inp = false ∧ isRegExpInput inp = false)) := by
  intro inp
  cases inp with
  | regexp src => simp [regexToEnglish, jsFalsy, isStringInput, isRegExpInput]
  | str s =>
    by_cases hd : s.data.isEmpty <;>
      simp [regexToEnglish, jsFalsy, isStringInput, isRegExpInput, hd]
  | other t => cases t <;> simp [regexToEnglish, jsFalsy, isStringInput, isRegExpInput]

/-- C7: every successful translation returns a non-empty string; the
empty-narration case falls back to the fixed text. -/
theorem output_nonempty : ∀ inp s, regexToEnglish inp = .ok s → s ≠ "" := by
  intro inp s h
  unfold regexToEnglish at h
  split at h
  · cases h
  · cases inp with
    | regexp src =>
      simp only [Except.ok.injEq] at h
      exact h ▸ explain_ne_empty _
    | str s' =>
      simp only [Except.ok.injEq] at h
      exact h ▸ explain_ne_empty _
    | other t => cases h

/-- C7 witness: the empty pattern source (a bare wrapper input) returns
exactly the fallback text, which is non-empty. -/
theorem output_nonempty_witness : ("Complex regex pattern" : String) ≠ "" :=
  output_nonempty (.str "//") "Complex regex pattern" (by decide)

/-- C8 counterexample: after the alternation fragment (which ends in a
space) the connector is suppressed even though the next character is an
ordinary literal outside the claimed exception set, so the narration of
the two-branch alternation carries no connector before its second
literal. -/
theorem connector_cex :
    regexToEnglish (.str "a|b") = .ok "literal a, then  OR literal b" ∧
    regexToEnglish (.str "a|b") ≠ .ok "literal a, then  OR , then literal b" :=
  ⟨by decide, by decide⟩

/-- C8 (amended): the connector is appended exactly when input remains,
the narration so far does not already end in a space or an open paren,
and the next character is none of close-paren, the three quantifier
symbols, open brace, or the end anchor; in particular the starred literal
reads as one fragment with its modifier attached, with no connector. -/
theorem connector_rule_amended :
    (∀ acc pat : List Char, ∀ i : Nat,
        connAppend acc pat i = true ↔
          (i < pat.length ∧ acc.getLast? ≠ some ' ' ∧ acc.getLast? ≠ some '(' ∧
            pat.get? i ≠ some ')' ∧ pat.get? i ≠ some '*' ∧ pat.get? i ≠ some '+' ∧
            pat.get? i ≠ some '?' ∧ pat.get? i ≠ some lbrace ∧ pat.get? i ≠ some '$')) ∧
    regexToEnglish (.str "a*") = .ok "literal a (zero or more times)" ∧
    regexToEnglish (.str "a|b") = .ok "literal a, then  OR literal b" := by
  refine ⟨?_, by decide, by decide⟩
  intro acc pat i
  simp [connAppend, Bool.and_eq_true, decide_eq_true_iff]
  tauto

/-- C9: the scan cursor strictly increases at every iteration of the
narration loop, and the loop's result is independent of the fuel once the
fuel covers the remaining distance — so with fuel equal to the pattern
length (as the translator calls it) the scan consumes each position at
most once and terminates. -/
theorem cursor_monotone :
    (∀ (pat : List Char) (i : Nat), i < pat.length → i < nextCursor pat i) ∧
    (∀ (pat : List Char) (f1 f2 i : Nat) (acc : List Char),
        pat.length - i ≤ f1 → pat.length - i ≤ f2 →
          narrLoop pat f1 i acc = narrLoop pat f2 i acc) := by
  constructor
  · intro pat i _
    exact Nat.lt_succ_of_le (emit_snd_ge pat i)
  · intro pat f1 f2 i acc h1 h2
    rcases Nat.le_total f1 f2 with hle | hle
    · rcases Nat.exists_eq_add_of_le hle with ⟨d, rfl⟩
      exact (narrLoop_fuel_add pat d f1 i acc h1).symm
    · rcases Nat.exists_eq_add_of_le hle with ⟨d, rfl⟩
      exact narrLoop_fuel_add pat d f2 i acc h2

/-- C9 witness: both conjuncts evaluated on a one-character pattern. -/
theorem cursor_monotone_witness :
    0 < nextCursor ['a'] 0 ∧ narrLoop ['a'] 1 0 [] = narrLoop ['a'] 5 0 [] :=
  ⟨cursor_monotone.1 ['a'] 0 (by decide),
    cursor_monotone.2 ['a'] 1 5 0 [] (by decide) (by decide)⟩

/-- C10: when the scan reaches a backslash that is the last character of
the pattern source, the escape branch looks one position past the end,
the looked-up value stringifies as "undefined", and the emitted fragment
is "literal undefined"; end to end, a source ending in a lone backslash
translates without error and its final fragment is "literal undefined". -/
theorem trailing_backslash :
    (∀ (pat : List Char) (i : Nat), pat.get? i = some '\\' → pat.get? (i + 1) = none →
        emitFrag pat i = ("literal undefined".data, i + 1)) ∧
    regexToEnglish (.str "a\\") = .ok "literal a, then literal undefined" := by
  refine ⟨?_, by decide⟩
  intro pat i h1 h2
  simp only [emitFrag, h1, h2]
  rfl

/-- C10 witness: the escape-branch statement evaluated at the final
backslash of a two-character source. -/
theorem trailing_backslash_witness :
    emitFrag "a\\".data 1 = ("literal undefined".data, 2) :=
  trailing_backslash.1 "a\\".data 1 (by decide) (by decide)

end RegexSimplifier
